import Mathlib

/-!
Verification of the webhook deployment server core: the concurrency guard
(`running` set keyed by `appName + "-" + env`), the sequential step-execution
state machine of `deployApp` (fail-fast, output truncation, duration
accounting), and the date-partitioned log store (`saveLog`, `parseLogFile`,
the query handler and the by-id search handler).

Modelling conventions:
* JS strings are `String` (lists of characters); an absent (`undefined`)
  string field is `none` when the code distinguishes it, and `""` when the
  code only ever tests truthiness (JS treats `undefined` and `""` alike
  as falsy).
* Wall-clock time advances only inside `execCommand`; each invocation is
  given the duration it took.  `Date.now()` differences are therefore sums
  of the durations of the commands executed in between.
* The filesystem is a partial map from partition key to file contents;
  a read of a missing file is the thrown-and-caught `ENOENT` of the source.
* `JSON.stringify` / `JSON.parse` are modelled character-exactly for the
  value shape the server writes (an array of flat objects with string and
  integer fields); a line holding any other JSON value is treated as
  unparseable.  No claim depends on the behaviour of `JSON.parse` outside
  that shape.
-/

namespace Deploy

/-- A deployment step from the config: `name` and `command`.  An absent JS
`name` is modelled as `""` (both are falsy, so both trigger the
default step name). -/
structure Step where
  name : String
  command : String
  deriving DecidableEq

/-- Result of one `execCommand` call: resolve with stdout/stderr, or reject
with the object the source builds at line 153, carrying the error message
and the captured stdout/stderr.  `dur` is the wall-clock time the command
took. -/
inductive ExecResult where
  | ok (stdout stderr : String) (dur : Nat)
  | err (errMsg stdout stderr : String) (dur : Nat)
  deriving DecidableEq

def ExecResult.dur : ExecResult → Nat
  | .ok _ _ d => d
  | .err _ _ _ d => d

def ExecResult.isOk : ExecResult → Bool
  | .ok _ _ _ => true
  | .err _ _ _ _ => false

/-- One entry of `log.steps` as pushed by `deployApp`.  The success push
(source lines 369-377) and the failure push (lines 385-394) have different
field sets, so fields present on only one path are `Option`s. -/
structure StepRec where
  order : Nat
  name : String
  command : String
  status : String
  duration : Nat
  output : Option String
  stderr : String
  stdout : Option String
  error : Option String
  deriving DecidableEq

/-- Source line 359: `const stepName = step.name || `Step ${i+1}``
(`i` is the 0-based loop index). -/
def stepNameOf (s : Step) (i : Nat) : String :=
  if s.name = "" then ("Step ") ++ toString (i + 1) else s.name

/-- JS `s ? s.slice(-n) : ""`: the last `n` characters of `s` (all of `s`
when it is shorter), and `""` for the falsy empty string. -/
def truncTail (n : Nat) (s : String) : String :=
  if s = "" then "" else ⟨s.data.drop (s.data.length - n)⟩

/-- The StepResult pushed on a successful step (source lines 369-377):
status `success`, per-step duration, stdout tail-truncated to 1000
characters, stderr to 500. -/
def mkOk (s : Step) (i : Nat) (out errS : String) (d : Nat) : StepRec :=
  { order := i + 1, name := stepNameOf s i, command := s.command,
    status := "success", duration := d,
    output := some (truncTail 1000 out),
    stderr := truncTail 500 errS,
    stdout := none, error := none }

/-- The StepResult pushed on a failing step (source lines 385-394): status
`error`, duration `Date.now() - startTime` (that is, `elapsed` since the
run's start plus this command's own time), and the error message, stdout
and stderr stored untruncated (fields `error`, `stdout`, `stderr`). -/
def mkErr (s : Step) (i : Nat) (elapsed : Nat) (e out errS : String) (d : Nat) : StepRec :=
  { order := i + 1, name := stepNameOf s i, command := s.command,
    status := "error", duration := elapsed + d,
    output := none, stderr := errS, stdout := some out, error := some e }

/-- The step loop of `deployApp` (source lines 357-400): run the steps in
order, accumulating StepResults; the first failure appends its error
record and aborts the loop (the source's `throw err`).  `i` is the index
of the first step of the remaining list, `elapsed` the time since the
run's start.  Returns the StepResults, the total elapsed time, and the
first failure's message if any. -/
def runLoop (exec : Nat → ExecResult) : List Step → Nat → Nat →
    List StepRec × Nat × Option String
  | [], _, elapsed => ([], elapsed, none)
  | s :: rest, i, elapsed =>
    match exec i with
    | .ok out errS d =>
      let t := runLoop exec rest (i + 1) (elapsed + d)
      (mkOk s i out errS d :: t.1, t.2.1, t.2.2)
    | .err e out errS d => ([mkErr s i elapsed e out errS d], elapsed + d, some e)

/-- The run record built by `deployApp` (source lines 343-351 and
403-417).  Timestamps are opaque strings. -/
structure RunRecord where
  deployId : String
  app : String
  env : String
  path : String
  startTime : String
  endTime : String
  status : String
  duration : Nat
  error : Option String
  steps : List StepRec
  deriving DecidableEq

/-- The key of the `running` set: `${appName}-${env}` (source lines 215,
353, 414). -/
def runKey (appName env : String) : String := appName ++ "-" ++ env

/-- The deployment function `deployApp` (source lines 341-419) up to and
including the `finally` that releases the guard slot.  On success the
record gets status `success`; on the first failure it gets status `failed`
and `log.error = err.error || err.message` — the rejection object has no
`message`, so an empty message leaves the field `undefined` (`none`).
Returns the finished record and the new `running` set. -/
def deployApp (exec : Nat → ExecResult) (deployId appName env path startT endT : String)
    (steps : List Step) (running : Finset String) : RunRecord × Finset String :=
  let key := runKey appName env
  let running1 := insert key running
  let t := runLoop exec steps 0 0
  let record : RunRecord :=
    match t.2.2 with
    | none =>
      { deployId := deployId, app := appName, env := env, path := path,
        startTime := startT, endTime := endT, status := "success",
        duration := t.2.1, error := none, steps := t.1 }
    | some e =>
      { deployId := deployId, app := appName, env := env, path := path,
        startTime := startT, endTime := endT, status := "failed",
        duration := t.2.1, error := if e = "" then none else some e, steps := t.1 }
  (record, running1.erase key)

/-- The trigger handler's in-flight check (source line 215): a request for
`(appName, env)` is rejected with "Deployment already running" iff the
hyphen-joined key is in the `running` set. -/
def deployRejected (running : Finset String) (appName env : String) : Bool :=
  decide (runKey appName env ∈ running)

/-- Sum of the durations of `n` consecutive `execCommand` calls starting at
index `i`. -/
def durSum (exec : Nat → ExecResult) (i : Nat) : Nat → Nat
  | 0 => 0
  | n + 1 => (exec i).dur + durSum exec (i + 1) n

/-! ### The log store: serialization (`saveLog`, source lines 162-187) -/

/-- JS `a || dflt` for an optional string `a`: the value when present and
nonempty (truthy), otherwise the fallback. -/
def jsOrD (a : Option String) (dflt : String) : String :=
  match a with
  | some s => if s = "" then dflt else s
  | none => dflt

/-- The per-step object `saveLog` serializes (source lines 169-178): keyed
by the 0-based position `step` (loop index of the `map`), not by the
StepResult's 1-based `order`, with `output: step.output || step.stdout
|| ""`, `stderr: step.stderr || ""` (the identity on strings), and
`error: step.error || ""`. -/
structure FStep where
  step : Nat
  name : String
  command : String
  status : String
  duration : Nat
  output : String
  stderr : String
  error : String
  deriving DecidableEq

def formatStep (idx : Nat) (r : StepRec) : FStep :=
  { step := idx, name := r.name, command := r.command, status := r.status,
    duration := r.duration,
    output := jsOrD r.output (jsOrD r.stdout ""),
    stderr := r.stderr,
    error := jsOrD r.error "" }

/-- `logEntry.steps.map((step, index) => ...)` with running index `i`. -/
def formatFrom (i : Nat) : List StepRec → List FStep
  | [] => []
  | r :: rs => formatStep i r :: formatFrom (i + 1) rs

def formatSteps (rs : List StepRec) : List FStep := formatFrom 0 rs

/-- Lower-case hexadecimal digit, as `JSON.stringify` emits in `\u00xx`
escapes (only applied to values below 16). -/
def hexDigitChar (d : Nat) : Char :=
  match d with
  | 0 => '0' | 1 => '1' | 2 => '2' | 3 => '3' | 4 => '4'
  | 5 => '5' | 6 => '6' | 7 => '7' | 8 => '8' | 9 => '9'
  | 10 => 'a' | 11 => 'b' | 12 => 'c' | 13 => 'd' | 14 => 'e'
  | _ => 'f'

/-- The characters `JSON.stringify` emits for one character of a string
value: the two-character escapes for quote, backslash and the five control
shorthands, `\u00xx` for the remaining control characters, the character
itself otherwise. -/
def escCharL (c : Char) : List Char :=
  if c = '"' then ['\\', '"']
  else if c = '\\' then ['\\', '\\']
  else if c = '\x08' then ['\\', 'b']
  else if c = '\x0c' then ['\\', 'f']
  else if c = '\n' then ['\\', 'n']
  else if c = '\r' then ['\\', 'r']
  else if c = '\t' then ['\\', 't']
  else if c.toNat < 32 then
    ['\\', 'u', '0', '0', hexDigitChar (c.toNat / 16), hexDigitChar (c.toNat % 16)]
  else [c]

def escL : List Char → List Char
  | [] => []
  | c :: cs => escCharL c ++ escL cs

/-- A JSON string literal: quote, escaped characters, quote. -/
def quoteL (s : String) : List Char := '"' :: (escL s.data ++ ['"'])

/-- Decimal digits of `n`, most significant first (accumulator form;
`fuel ≥ n` suffices since `n` shrinks by a factor of ten each step). -/
def natDigitsGo (fuel : Nat) (n : Nat) (acc : List Char) : List Char :=
  match fuel with
  | 0 => acc
  | fuel + 1 => if n = 0 then acc else natDigitsGo fuel (n / 10) (Nat.digitChar (n % 10) :: acc)

/-- The decimal representation `JSON.stringify` emits for a nonnegative
integer. -/
def natDigits (n : Nat) : List Char :=
  if n = 0 then ['0'] else natDigitsGo n n []

/-- `JSON.stringify` of one formatted step object, keys in insertion
order. -/
def fstepJsonL (f : FStep) : List Char :=
  ("\x7b\"step\":").data ++ natDigits f.step ++
  (",\"name\":").data ++ quoteL f.name ++
  (",\"command\":").data ++ quoteL f.command ++
  (",\"status\":").data ++ quoteL f.status ++
  (",\"duration\":").data ++ natDigits f.duration ++
  (",\"output\":").data ++ quoteL f.output ++
  (",\"stderr\":").data ++ quoteL f.stderr ++
  (",\"error\":").data ++ quoteL f.error ++ ("\x7d").data

/-- Comma-joined array elements. -/
def fstepsJsonL : List FStep → List Char
  | [] => []
  | [f] => fstepJsonL f
  | f :: fs => fstepJsonL f ++ ',' :: fstepsJsonL fs

/-- `JSON.stringify` of the array of formatted steps. -/
def stepsJsonL (fs : List FStep) : List Char := '[' :: (fstepsJsonL fs ++ [']'])

/-- The log line `saveLog` appends (source line 180):
`${deployId}: ${JSON.stringify(formattedSteps)}\n`. -/
def logLine (deployId : String) (rs : List StepRec) : String :=
  ⟨deployId.data ++ (": ").data ++ stepsJsonL (formatSteps rs) ++ ['\n']⟩

/-! ### The log store: parsing (`parseLogFile`, source lines 48-68) -/

/-- The whitespace set of the JS `trim` (ECMAScript WhiteSpace and
LineTerminator: ASCII whitespace, NBSP, BOM, the Zs spaces, LS and PS). -/
def isWsJS (c : Char) : Bool :=
  c = ' ' || c = '\t' || c = '\n' || c = '\r' || c = '\x0b' || c = '\x0c' ||
  c.toNat = 0xa0 || c.toNat = 0x1680 ||
  (decide (0x2000 ≤ c.toNat) && decide (c.toNat ≤ 0x200a)) ||
  c.toNat = 0x2028 || c.toNat = 0x2029 || c.toNat = 0x202f ||
  c.toNat = 0x205f || c.toNat = 0x3000 || c.toNat = 0xfeff

/-- JS `String.prototype.trim`: strip leading and trailing whitespace. -/
def jsTrimL (l : List Char) : List Char :=
  ((l.dropWhile isWsJS).reverse.dropWhile isWsJS).reverse

/-- JS `content.split("\n")`. -/
def splitNL : List Char → List (List Char)
  | [] => [[]]
  | c :: cs =>
    if c = '\n' then [] :: splitNL cs
    else
      match splitNL cs with
      | [] => [[c]]
      | l :: ls => (c :: l) :: ls

/-- JS `line.indexOf(":")`: position of the first colon, if any. -/
def idxOfColon : List Char → Option Nat
  | [] => none
  | c :: cs => if c = ':' then some 0 else (idxOfColon cs).map (· + 1)

/-- Prefix matcher used by the JSON-value parser. -/
def expectL : List Char → List Char → Option (List Char)
  | [], cs => some cs
  | _ :: _, [] => none
  | p :: ps, c :: cs => if c = p then expectL ps cs else none

def hexVal (c : Char) : Option Nat :=
  if '0' ≤ c ∧ c ≤ '9' then some (c.toNat - 48)
  else if 'a' ≤ c ∧ c ≤ 'f' then some (c.toNat - 87)
  else if 'A' ≤ c ∧ c ≤ 'F' then some (c.toNat - 55)
  else none

mutual

/-- Body of a JSON string literal, after the opening quote: characters up
to the closing quote, decoding backslash escapes.  Split into three
mutually recursive functions (body, escape dispatch, `\uXXXX` decoding)
so the recursion is structural. -/
def parseStrBody : List Char → Option (List Char × List Char)
  | [] => none
  | c :: cs =>
    if c = '"' then some ([], cs)
    else if c = '\\' then parseEsc cs
    else (parseStrBody cs).map (fun r => (c :: r.1, r.2))

def parseEsc : List Char → Option (List Char × List Char)
  | [] => none
  | e :: cs =>
    if e = '"' then (parseStrBody cs).map (fun r => ('"' :: r.1, r.2))
    else if e = '\\' then (parseStrBody cs).map (fun r => ('\\' :: r.1, r.2))
    else if e = '/' then (parseStrBody cs).map (fun r => ('/' :: r.1, r.2))
    else if e = 'b' then (parseStrBody cs).map (fun r => ('\x08' :: r.1, r.2))
    else if e = 'f' then (parseStrBody cs).map (fun r => ('\x0c' :: r.1, r.2))
    else if e = 'n' then (parseStrBody cs).map (fun r => ('\n' :: r.1, r.2))
    else if e = 'r' then (parseStrBody cs).map (fun r => ('\r' :: r.1, r.2))
    else if e = 't' then (parseStrBody cs).map (fun r => ('\t' :: r.1, r.2))
    else if e = 'u' then parseEscU cs
    else none

def parseEscU : List Char → Option (List Char × List Char)
  | h1 :: h2 :: h3 :: h4 :: cs =>
    match hexVal h1, hexVal h2, hexVal h3, hexVal h4 with
    | some v1, some v2, some v3, some v4 =>
      (parseStrBody cs).map
        (fun r => (Char.ofNat (((v1 * 16 + v2) * 16 + v3) * 16 + v4) :: r.1, r.2))
    | _, _, _, _ => none
  | _ => none

end

/-- Greedy decimal-digit scan with accumulator. -/
def digitsAux : Nat → List Char → Nat × List Char
  | acc, [] => (acc, [])
  | acc, c :: cs =>
    if c.isDigit then digitsAux (acc * 10 + (c.toNat - 48)) cs else (acc, c :: cs)

/-- A JSON nonnegative-integer literal (the only number shape the server
writes). -/
def parseNatL : List Char → Option (Nat × List Char)
  | [] => none
  | c :: cs => if c.isDigit then some (digitsAux 0 (c :: cs)) else none

/-- Tail of one step object after the `duration` value: the `output`,
`stderr` and `error` string fields and the closing brace. -/
def parseFStepStrTail (cs : List Char) : Option ((List Char × List Char × List Char) × List Char) :=
  (expectL (",\"output\":\"").data cs).bind fun cs5 =>
  (parseStrBody cs5).bind fun p6 =>
  (expectL (",\"stderr\":\"").data p6.2).bind fun cs6 =>
  (parseStrBody cs6).bind fun p7 =>
  (expectL (",\"error\":\"").data p7.2).bind fun cs7 =>
  (parseStrBody cs7).bind fun p8 =>
  (expectL ("\x7d").data p8.2).bind fun cs8 =>
  some ((p6.1, p7.1, p8.1), cs8)

/-- One step object, in the exact key order `saveLog` writes. -/
def parseFStep (cs : List Char) : Option (FStep × List Char) :=
  (expectL ("\x7b\"step\":").data cs).bind fun cs1 =>
  (parseNatL cs1).bind fun p1 =>
  (expectL (",\"name\":\"").data p1.2).bind fun cs2 =>
  (parseStrBody cs2).bind fun p2 =>
  (expectL (",\"command\":\"").data p2.2).bind fun cs3 =>
  (parseStrBody cs3).bind fun p3 =>
  (expectL (",\"status\":\"").data p3.2).bind fun cs4 =>
  (parseStrBody cs4).bind fun p4 =>
  (expectL (",\"duration\":").data p4.2).bind fun cs5 =>
  (parseNatL cs5).bind fun p5 =>
  (parseFStepStrTail p5.2).bind fun pt =>
  some ({ step := p1.1, name := ⟨p2.1⟩, command := ⟨p3.1⟩, status := ⟨p4.1⟩,
          duration := p5.1, output := ⟨pt.1.1⟩, stderr := ⟨pt.1.2.1⟩,
          error := ⟨pt.1.2.2⟩ }, pt.2)

/-- The elements of a nonempty JSON array, fuelled by the input length. -/
def parseArrAux (fuel : Nat) (cs : List Char) : Option (List FStep × List Char) :=
  match fuel with
  | 0 => none
  | fuel + 1 =>
    match parseFStep cs with
    | none => none
    | some (f, rest) =>
      match rest with
      | ',' :: rest2 =>
        match parseArrAux fuel rest2 with
        | some (fs, rest3) => some (f :: fs, rest3)
        | none => none
      | ']' :: rest2 => some ([f], rest2)
      | _ => none

/-- `JSON.parse` restricted to the value shape `saveLog` writes: a whole
input that is exactly an array of step objects. -/
def parseStepsL (cs : List Char) : Option (List FStep) :=
  match cs with
  | '[' :: ']' :: rest => if rest = [] then some [] else none
  | '[' :: rest =>
    match parseArrAux (rest.length + 1) rest with
    | some (fs, rest2) => if rest2 = [] then some fs else none
    | none => none
  | _ => none

/-- One parsed log record: `{ deployId, steps }` (source line 61). -/
structure LogRec where
  deployId : String
  steps : List FStep
  deriving DecidableEq

/-- One iteration of the `parseLogFile` loop (source lines 52-65): find the
first colon (skip the line when absent), trim the two halves, parse the
JSON; a parse failure is caught and the line skipped. -/
def parseLineL (line : List Char) : Option LogRec :=
  match idxOfColon line with
  | none => none
  | some ci =>
    match parseStepsL (jsTrimL (line.drop (ci + 1))) with
    | some steps => some { deployId := ⟨jsTrimL (line.take ci)⟩, steps := steps }
    | none => none

/-- `parseLogFile` (source lines 48-68): split on newlines, keep lines with
nonempty trim, parse each independently, skipping failures. -/
def parseLogFile (content : String) : List LogRec :=
  ((splitNL content.data).filter (fun l => !(jsTrimL l).isEmpty)).filterMap parseLineL

/-! ### `saveLog` (source lines 162-187) and the full deployment run -/

/-- Append `line` to the file at `key`, creating it when absent
(`fs.appendFile` after `ensureLogsDir`). -/
def appendFS (fs : String → Option String) (key line : String) : String → Option String :=
  fun k => if k = key then some ((fs key).getD "" ++ line) else fs k

/-- `saveLog` (source lines 162-187).  `writeOk` is the environment's
verdict on the directory-creation/append I/O; on failure the catch block
only reports (`console.error`) and the function returns normally with the
filesystem unchanged.  `saveKey` is the partition of the day the call is
made (`getLogFilePath()` evaluated at save time, source line 166). -/
def saveLog (writeOk : Bool) (saveKey : String) (record : RunRecord)
    (fs : String → Option String) : String → Option String :=
  if writeOk then appendFS fs saveKey (logLine record.deployId record.steps) else fs

/-- A whole `deployApp` call including the final `await saveLog(log)`
(source line 418): the run itself, the guard release, then persistence.
Returns the finished record, the new `running` set and the new
filesystem. -/
def deployAppFull (exec : Nat → ExecResult) (deployId appName env path startT endT : String)
    (steps : List Step) (running : Finset String)
    (writeOk : Bool) (saveKey : String) (fs : String → Option String) :
    RunRecord × Finset String × (String → Option String) :=
  let r := deployApp exec deployId appName env path startT endT steps running
  (r.1, r.2, saveLog writeOk saveKey r.1 fs)

/-! ### The query handler (source lines 239-286) -/

/-- JS `s.includes(sub)`: substring containment. -/
def strIncludes (s sub : String) : Bool :=
  decide (sub.data <:+: s.data)

/-- The partition the query handler reads (source lines 248-266): the named
`date` file when the `date` parameter is present and truthy, today's file
otherwise. -/
def queryKey (dateF : Option String) (todayKey : String) : String :=
  match dateF with
  | some d => if d = "" then todayKey else d
  | none => todayKey

/-- One `if (param) logs = logs.filter(l => l.deployId.includes(param))`
step (source lines 269-274); an absent or empty (falsy) parameter leaves
the list unfiltered. -/
def jsFilter (p : Option String) (logs : List LogRec) : List LogRec :=
  match p with
  | some a => if a = "" then logs else logs.filter (fun l => strIncludes l.deployId a)
  | none => logs

structure QueryResult where
  logs : List LogRec
  total : Nat
  deriving DecidableEq

/-- The GET /webhook/deploy/log handler (source lines 239-286): read one
partition (a missing file is caught and leaves `logs = []`), filter by
`app` then `env`, answer with `logs.slice(0, limit)` and the filtered
count.  `limit` is the value after the excluded HTTP layer's
`parseInt(req.query.limit) || 20` parsing, a nonnegative count. -/
def query (fs : String → Option String) (todayKey : String) (limit : Nat)
    (appF envF dateF : Option String) : QueryResult :=
  let logs0 :=
    match fs (queryKey dateF todayKey) with
    | some data => parseLogFile data
    | none => []
  let logs2 := jsFilter envF (jsFilter appF logs0)
  { logs := logs2.take limit, total := logs2.length }

/-! ### The by-id search handler (source lines 289-338) -/

/-- Read one day's partition and look for an exact `deployId` match
(source lines 300-302 and 318-320); a missing file reads as no hit. -/
def dayHit (fs : Int → Option String) (d : Int) (target : String) : Option LogRec :=
  match fs d with
  | some data => (parseLogFile data).find? (fun l => l.deployId == target)
  | none => none

/-- The backward loop of the handler (source lines 312-329): try offsets
`i, i+1, ...` for `n` days, first hit wins. -/
def searchBackFrom (fs : Int → Option String) (today : Int) (target : String) :
    Nat → Nat → Option LogRec
  | _, 0 => none
  | i, n + 1 =>
    match dayHit fs (today - (i : Int)) target with
    | some l => some l
    | none => searchBackFrom fs today target (i + 1) n

/-- The GET /webhook/deploy/log/:deployId handler (source lines 289-338):
today's partition first, then the last 7 calendar days, `none` when no
partition in the window holds the id.  Calendar days are modelled as
integers (one partition per day). -/
def findById (fs : Int → Option String) (today : Int) (target : String) : Option LogRec :=
  match dayHit fs today target with
  | some l => some l
  | none => searchBackFrom fs today target 1 7

/-- The same search, phrased as the spec words it: scan the offsets
`0, 1, ..., 7` in order and return the first day's hit. -/
def scanDays (fs : Int → Option String) (today : Int) (target : String) :
    List Nat → Option LogRec
  | [] => none
  | i :: is =>
    match dayHit fs (today - (i : Int)) target with
    | some l => some l
    | none => scanDays fs today target is

/-! ### Proof-side helpers and concrete fixtures -/

/-- The next character to scan is not a digit (so a greedy digit scan
stops); vacuously true at the end of input. -/
def noDigitHead (l : List Char) : Prop := (l.headD (',')).isDigit = false

/-- Decimal accumulator step, as performed by `digitsAux`. -/
def decAcc (x : Nat) (c : Char) : Nat := x * 10 + (c.toNat - 48)

/-- Newline-join, the left inverse of `splitNL` on newline-free lines. -/
def joinNL : List (List Char) → List Char
  | [] => []
  | [l] => l
  | l :: ls => l ++ '\n' :: joinNL ls

/-- Placeholder StepRec used with `List.getD`. -/
def dStep : StepRec :=
  { order := 0, name := "", command := "", status := "", duration := 0,
    output := none, stderr := "", stdout := none, error := none }

/-- Placeholder FStep used with `List.getD`. -/
def fStepD : FStep :=
  { step := 0, name := "", command := "", status := "", duration := 0,
    output := "", stderr := "", error := "" }

/-- Fixture: a three-step definition. -/
def stepsW : List Step := [⟨("build"), ("c1")⟩, ⟨("test"), ("c2")⟩, ⟨("ship"), ("c3")⟩]

/-- Fixture: an environment where every command succeeds. -/
def execOkW : Nat → ExecResult := fun j => .ok ("o") ("") (j + 1)

/-- Fixture: step 0 succeeds, every later step fails. -/
def execFailW : Nat → ExecResult :=
  fun j => if j = 0 then .ok ("o1") ("e1") 3 else .err ("boom") ("O2") ("E2") 4

/-- Fixture: a 1001-character stdout captured by a failing command. -/
def bigOut : String := ⟨List.replicate 1001 'a'⟩

/-- Fixture: a 501-character stderr captured by a failing command. -/
def bigErr : String := ⟨List.replicate 501 'e'⟩

/-- Fixture: an environment whose first command fails with oversized
captured output. -/
def execC2 : Nat → ExecResult := fun _ => .err ("boom") bigOut bigErr 5

/-- Fixture: a one-step record list. -/
def rsW : List StepRec := [mkOk ⟨("s1"), ("c1")⟩ 0 ("hi") ("") 5]

/-- Fixture: a StepRec whose `order` is 5 (as the sixth step of a run
would carry). -/
def rOrder5 : StepRec :=
  { order := 5, name := "n", command := "c", status := "success", duration := 7,
    output := some ("o"), stderr := "e", stdout := none, error := none }

/-- Fixture: the record of the `execFailW` run over `stepsW`. -/
def runW : RunRecord :=
  (deployApp execFailW ("d") ("a") ("b") ("p") ("s") ("t") stepsW ∅).1

/-- Fixture: a log id present only in yesterday's partition. -/
def fs6a : Int → Option String := fun d => if d = -1 then some (logLine ("idX") []) else none

/-- Fixture: a log id present only eight days back. -/
def fs6b : Int → Option String := fun d => if d = -8 then some (logLine ("idX") []) else none

/-- Fixture: a partition named 20240101 holding three parseable lines. -/
def fsQ : String → Option String :=
  fun k =>
    if k = ("20240101") then
      some (logLine ("a-b-1") [] ++ logLine ("a-b-2") [] ++ logLine ("a-b-3") [])
    else none

/-! ## Lemmas about the step loop -/

theorem runLoop_all_ok (exec : Nat → ExecResult) (ss : List Step) :
    ∀ i el, (∀ j, j < ss.length → (exec (i + j)).isOk = true) →
      (runLoop exec ss i el).1.length = ss.length ∧ (runLoop exec ss i el).2.2 = none := by
  induction ss with
  | nil => intro i el _; simp [runLoop]
  | cons s rest ih =>
    intro i el h
    have h0 := h 0 (by simp)
    rw [Nat.add_zero] at h0
    cases hx : exec i with
    | err e o s2 d => rw [hx] at h0; simp [ExecResult.isOk] at h0
    | ok o s2 d =>
      have hrec := ih (i + 1) (el + d) (fun j hj => by
        have := h (j + 1) (by simpa using Nat.succ_lt_succ hj)
        rwa [show i + (j + 1) = i + 1 + j by omega] at this)
      simp [runLoop, hx, hrec.1, hrec.2]

theorem runLoop_fail (exec : Nat → ExecResult) (e out errS : String) (d : Nat)
    (ss : List Step) :
    ∀ i el f, f < ss.length → (∀ j, j < f → (exec (i + j)).isOk = true) →
      exec (i + f) = .err e out errS d →
      (runLoop exec ss i el).1.length = f + 1 ∧
      (runLoop exec ss i el).2.2 = some e ∧
      (∃ pre r, (runLoop exec ss i el).1 = pre ++ [r] ∧ r.status = "error") ∧
      ∀ exec2, (∀ j, j ≤ f → exec2 (i + j) = exec (i + j)) →
        runLoop exec2 ss i el = runLoop exec ss i el := by
  induction ss with
  | nil => intro i el f hf; simp at hf
  | cons s rest ih =>
    intro i el f hf hok hfail
    cases f with
    | zero =>
      rw [Nat.add_zero] at hfail
      refine ⟨by simp [runLoop, hfail], by simp [runLoop, hfail], ?_, ?_⟩
      · exact ⟨[], mkErr s i el e out errS d, by simp [runLoop, hfail], rfl⟩
      · intro exec2 hagree
        have h0 := hagree 0 (Nat.le_refl 0)
        rw [Nat.add_zero] at h0
        simp [runLoop, hfail, h0]
    | succ f2 =>
      have h0 := hok 0 (Nat.succ_pos _)
      rw [Nat.add_zero] at h0
      cases hx : exec i with
      | err e2 o2 s2 d2 => rw [hx] at h0; simp [ExecResult.isOk] at h0
      | ok o2 s2 d2 =>
        have hf2 : f2 < rest.length := by simpa using Nat.lt_of_succ_lt_succ hf
        have hok2 : ∀ j, j < f2 → (exec (i + 1 + j)).isOk = true := by
          intro j hj
          have := hok (j + 1) (Nat.succ_lt_succ hj)
          rwa [show i + (j + 1) = i + 1 + j by omega] at this
        have hfail2 : exec (i + 1 + f2) = .err e out errS d := by
          rwa [show i + 1 + f2 = i + (f2 + 1) by omega]
        have hrec := ih (i + 1) (el + d2) f2 hf2 hok2 hfail2
        refine ⟨by simp [runLoop, hx, hrec.1], by simp [runLoop, hx, hrec.2.1], ?_, ?_⟩
        · obtain ⟨pre, r, hsplit, hstat⟩ := hrec.2.2.1
          exact ⟨mkOk s i o2 s2 d2 :: pre, r, by simp [runLoop, hx, hsplit], hstat⟩
        · intro exec2 hagree
          have h0a := hagree 0 (Nat.zero_le _)
          rw [Nat.add_zero] at h0a
          have hagree2 : ∀ j, j ≤ f2 → exec2 (i + 1 + j) = exec (i + 1 + j) := by
            intro j hj
            have := hagree (j + 1) (Nat.succ_le_succ hj)
            rwa [show i + (j + 1) = i + 1 + j by omega] at this
          have := hrec.2.2.2 exec2 hagree2
          simp [runLoop, h0a, hx, this]

theorem runLoop_getD (exec : Nat → ExecResult) (ss : List Step) :
    ∀ i el k, k < (runLoop exec ss i el).1.length →
      (((runLoop exec ss i el).1.getD k dStep).status = "success" →
        ((runLoop exec ss i el).1.getD k dStep).duration = (exec (i + k)).dur) ∧
      (((runLoop exec ss i el).1.getD k dStep).status = "error" →
        ((runLoop exec ss i el).1.getD k dStep).duration = el + durSum exec i (k + 1)) := by
  induction ss with
  | nil => intro i el k hk; simp [runLoop] at hk
  | cons s rest ih =>
    intro i el k hk
    cases hx : exec i with
    | ok o2 s2 d2 =>
      cases k with
      | zero =>
        constructor
        · intro _; simp [runLoop, hx, mkOk, ExecResult.dur]
        · intro habs; simp [runLoop, hx, mkOk] at habs
      | succ k2 =>
        have hlen : (runLoop exec (s :: rest) i el).1 =
            mkOk s i o2 s2 d2 :: (runLoop exec rest (i + 1) (el + d2)).1 := by
          simp [runLoop, hx]
        have hk2 : k2 < (runLoop exec rest (i + 1) (el + d2)).1.length := by
          rw [hlen] at hk
          simpa using hk
        have hrec := ih (i + 1) (el + d2) k2 hk2
        constructor
        · intro hstat
          rw [hlen] at hstat ⊢
          simp only [List.getD_cons_succ] at hstat ⊢
          rw [hrec.1 hstat, show i + 1 + k2 = i + (k2 + 1) from by omega]
        · intro hstat
          rw [hlen] at hstat ⊢
          simp only [List.getD_cons_succ] at hstat ⊢
          rw [hrec.2 hstat]
          have hshift : durSum exec i (k2 + 1 + 1) = (exec i).dur + durSum exec (i + 1) (k2 + 1) := rfl
          rw [hshift, hx]
          simp only [ExecResult.dur]
          omega
    | err e2 o2 s2 d2 =>
      have hk0 : k = 0 := by simp [runLoop, hx] at hk; omega
      subst hk0
      constructor
      · intro habs; simp [runLoop, hx, mkErr] at habs
      · intro _
        simp [runLoop, hx, mkErr, durSum, ExecResult.dur]

theorem durSum_eq_sum_range (exec : Nat → ExecResult) :
    ∀ n i, durSum exec i n = ((List.range n).map (fun j => (exec (i + j)).dur)).sum := by
  intro n
  induction n with
  | zero => intro i; simp [durSum]
  | succ n2 ih =>
    intro i
    rw [List.range_succ_eq_map]
    simp only [List.map_cons, List.sum_cons, List.map_map]
    have hfun : ((fun j => (exec (i + j)).dur) ∘ Nat.succ) = fun j => (exec (i + 1 + j)).dur := by
      funext j
      simp only [Function.comp]
      congr 2
      omega
    rw [hfun]
    simp [durSum, ih (i + 1)]

theorem deployApp_steps (exec : Nat → ExecResult) (did app env p st et : String)
    (steps : List Step) (running : Finset String) :
    (deployApp exec did app env p st et steps running).1.steps = (runLoop exec steps 0 0).1 := by
  unfold deployApp
  cases h : (runLoop exec steps 0 0).2.2 <;> simp [h]

/-! ## C1: fail-fast runs -/

/-- C1.  For every run in which step `i` fails (0-based `f` here, so the
claim's 1-based `i` is `f + 1`): the record holds exactly `f + 1` step
entries, the last entry has status `error`, the run's status is `failed`,
the record's `error` field holds the triggering error's message, and no
step after the failing one is ever executed — the whole run is unchanged
under any environment that agrees on the commands up to the failing one.
The message-nonempty hypothesis reflects that a `child_process` exec error
always carries a nonempty message; an empty one would be recorded as an
absent field by `err.error || err.message`. -/
theorem c1_fail_fast (exec : Nat → ExecResult) (did app env p st et : String)
    (steps : List Step) (running : Finset String)
    (f : Nat) (e out errS : String) (d : Nat)
    (hf : f < steps.length)
    (hok : ∀ j, j < f → (exec j).isOk = true)
    (hfail : exec f = .err e out errS d)
    (hne : e ≠ "") :
    ((deployApp exec did app env p st et steps running).1.steps.length = f + 1) ∧
    (∃ pre r, (deployApp exec did app env p st et steps running).1.steps = pre ++ [r] ∧
      r.status = "error") ∧
    ((deployApp exec did app env p st et steps running).1.status = "failed") ∧
    ((deployApp exec did app env p st et steps running).1.error = some e) ∧
    (∀ exec2, (∀ j, j ≤ f → exec2 j = exec j) →
      deployApp exec2 did app env p st et steps running =
        deployApp exec did app env p st et steps running) := by
  have hok0 : ∀ j, j < f → (exec (0 + j)).isOk = true := by
    intro j hj; rw [Nat.zero_add]; exact hok j hj
  have hfail0 : exec (0 + f) = .err e out errS d := by rwa [Nat.zero_add]
  have L := runLoop_fail exec e out errS d steps 0 0 f hf hok0 hfail0
  have hsteps := deployApp_steps exec did app env p st et steps running
  refine ⟨?_, ?_, ?_, ?_, ?_⟩
  · rw [hsteps]; exact L.1
  · rw [hsteps]; exact L.2.2.1
  · unfold deployApp; simp [L.2.1]
  · unfold deployApp; simp [L.2.1, hne]
  · intro exec2 hagree
    have hagree0 : ∀ j, j ≤ f → exec2 (0 + j) = exec (0 + j) := by
      intro j hj; rw [Nat.zero_add]; exact hagree j hj
    have := L.2.2.2 exec2 hagree0
    unfold deployApp
    rw [this]

/-- Witness for C1 at a concrete three-step run failing at step 2
(0-based index 1). -/
theorem c1_fail_fast_witness :
    (1 < stepsW.length) ∧
    (∀ j, j < 1 → (execFailW j).isOk = true) ∧
    (execFailW 1 = .err ("boom") ("O2") ("E2") 4) ∧
    (("boom" : String) ≠ "") ∧
    (((deployApp execFailW ("d") ("a") ("b") ("p") ("s") ("t") stepsW ∅).1.steps.length = 2) ∧
      (∃ pre r,
        (deployApp execFailW ("d") ("a") ("b") ("p") ("s") ("t") stepsW ∅).1.steps =
          pre ++ [r] ∧ r.status = "error") ∧
      ((deployApp execFailW ("d") ("a") ("b") ("p") ("s") ("t") stepsW ∅).1.status = "failed") ∧
      ((deployApp execFailW ("d") ("a") ("b") ("p") ("s") ("t") stepsW ∅).1.error =
        some ("boom")) ∧
      (∀ exec2, (∀ j, j ≤ 1 → exec2 j = execFailW j) →
        deployApp exec2 ("d") ("a") ("b") ("p") ("s") ("t") stepsW ∅ =
          deployApp execFailW ("d") ("a") ("b") ("p") ("s") ("t") stepsW ∅)) :=
  ⟨by decide, by decide, by decide, by decide,
    c1_fail_fast execFailW ("d") ("a") ("b") ("p") ("s") ("t") stepsW ∅ 1
      ("boom") ("O2") ("E2") 4 (by decide) (by decide) (by decide) (by decide)⟩

/-! ## C4: the guard slot is always released -/

/-- C4.  After `deployApp` returns, the RunGuard slot for its
`(app, env)` pair is free, whatever the step outcomes were: the release
sits in the `finally` block of the source (line 414), which the model
reflects by performing the erase on every path of the total function. -/
theorem c4_guard_released (exec : Nat → ExecResult) (did app env p st et : String)
    (steps : List Step) (running : Finset String) :
    runKey app env ∉ (deployApp exec did app env p st et steps running).2 := by
  unfold deployApp
  simp

/-! ## C5: fully successful runs -/

/-- C5.  When every command of the definition succeeds, the run record's
status is `success` and it holds exactly one StepResult per defined
step. -/
theorem c5_all_success (exec : Nat → ExecResult) (did app env p st et : String)
    (steps : List Step) (running : Finset String)
    (hok : ∀ j, j < steps.length → (exec j).isOk = true) :
    ((deployApp exec did app env p st et steps running).1.status = "success") ∧
    ((deployApp exec did app env p st et steps running).1.steps.length = steps.length) := by
  have hok0 : ∀ j, j < steps.length → (exec (0 + j)).isOk = true := by
    intro j hj; rw [Nat.zero_add]; exact hok j hj
  have L := runLoop_all_ok exec steps 0 0 hok0
  have hsteps := deployApp_steps exec did app env p st et steps running
  constructor
  · unfold deployApp; simp [L.2]
  · rw [hsteps]; exact L.1

/-- Witness for C5 at a concrete three-step all-success run. -/
theorem c5_all_success_witness :
    (∀ j, j < stepsW.length → (execOkW j).isOk = true) ∧
    ((deployApp execOkW ("d") ("a") ("b") ("p") ("s") ("t") stepsW ∅).1.status = "success") ∧
    ((deployApp execOkW ("d") ("a") ("b") ("p") ("s") ("t") stepsW ∅).1.steps.length =
      stepsW.length) :=
  ⟨by decide,
    (c5_all_success execOkW ("d") ("a") ("b") ("p") ("s") ("t") stepsW ∅ (by decide)).1,
    (c5_all_success execOkW ("d") ("a") ("b") ("p") ("s") ("t") stepsW ∅ (by decide)).2⟩

/-! ## C9: duration accounting -/

/-- C9.  In the run record, a successful step's recorded duration is the
elapsed time of that step's own command alone, while a failing step's
recorded duration is the elapsed time since the overall run's start (the
sum of the durations of commands 0..k), matching the source's
`Date.now() - stepStartTime` versus `Date.now() - startTime`. -/
theorem c9_durations (exec : Nat → ExecResult) (did app env p st et : String)
    (steps : List Step) (running : Finset String) (k : Nat)
    (hk : k < (deployApp exec did app env p st et steps running).1.steps.length) :
    (((deployApp exec did app env p st et steps running).1.steps.getD k dStep).status =
        "success" →
      ((deployApp exec did app env p st et steps running).1.steps.getD k dStep).duration =
        (exec k).dur) ∧
    (((deployApp exec did app env p st et steps running).1.steps.getD k dStep).status =
        "error" →
      ((deployApp exec did app env p st et steps running).1.steps.getD k dStep).duration =
        ((List.range (k + 1)).map (fun j => (exec j).dur)).sum) := by
  have hsteps := deployApp_steps exec did app env p st et steps running
  rw [hsteps] at hk ⊢
  have L := runLoop_getD exec steps 0 0 k hk
  constructor
  · intro h
    rw [L.1 h, Nat.zero_add]
  · intro h
    rw [L.2 h, durSum_eq_sum_range]
    simp

/-- Witness for C9 at a run failing at step index 1: the failed step's
duration is the run-start-relative 3 + 4 = 7. -/
theorem c9_durations_witness :
    (1 < runW.steps.length) ∧
    ((runW.steps.getD 1 dStep).status = "success" →
      (runW.steps.getD 1 dStep).duration = (execFailW 1).dur) ∧
    ((runW.steps.getD 1 dStep).status = "error" →
      (runW.steps.getD 1 dStep).duration =
        ((List.range 2).map (fun j => (execFailW j).dur)).sum) :=
  ⟨by decide,
    (c9_durations execFailW ("d") ("a") ("b") ("p") ("s") ("t") stepsW ∅ 1 (by decide)).1,
    (c9_durations execFailW ("d") ("a") ("b") ("p") ("s") ("t") stepsW ∅ 1 (by decide)).2⟩

/-! ## C10: the guard key is the joined string, not the pair -/

/-- C10.  The RunGuard slot identity is the single hyphen-joined string:
the distinct pairs `("a", "b-c")` and `("a-b", "c")` produce the same key,
and in general whenever two pairs' joined keys coincide, a trigger for the
second pair is rejected while a run for the first is in flight. -/
theorem c10_slot_key_collision :
    (runKey ("a") ("b-c") = runKey ("a-b") ("c")) ∧
    ((("a" : String), ("b-c" : String)) ≠ (("a-b" : String), ("c" : String))) ∧
    (∀ a1 e1 a2 e2 (running : Finset String), runKey a1 e1 = runKey a2 e2 →
      deployRejected (insert (runKey a1 e1) running) a2 e2 = true) := by
  refine ⟨by decide, by decide, ?_⟩
  intro a1 e1 a2 e2 running h
  simp [deployRejected, ← h]

/-- Witness for C10: while `("a", "b-c")` is running, the trigger for
`("a-b", "c")` is rejected as already running. -/
theorem c10_slot_key_collision_witness :
    (runKey ("a") ("b-c") = runKey ("a-b") ("c")) ∧
    (deployRejected (insert (runKey ("a") ("b-c")) ∅) ("a-b") ("c") = true) :=
  ⟨by decide, c10_slot_key_collision.2.2 ("a") ("b-c") ("a-b") ("c") ∅ (by decide)⟩

/-! ## C2: truncation of persisted step output -/

theorem truncTail_length (n : Nat) (s : String) : (truncTail n s).length ≤ n := by
  unfold truncTail
  split
  · simp [String.length]
  · simp only [String.length, List.length_drop]
    omega

theorem formatFrom_mem (f : FStep) :
    ∀ (rs : List StepRec) (i : Nat), f ∈ formatFrom i rs →
      ∃ j r, r ∈ rs ∧ f = formatStep j r := by
  intro rs
  induction rs with
  | nil => intro i h; simp [formatFrom] at h
  | cons r0 rest ih =>
    intro i h
    have h' : f = formatStep i r0 ∨ f ∈ formatFrom (i + 1) rest := by
      simpa [formatFrom] using h
    rcases h' with h1 | h2
    · exact ⟨i, r0, by simp, h1⟩
    · obtain ⟨j, r, hr, he⟩ := ih (i + 1) h2
      exact ⟨j, r, by simp [hr], he⟩

theorem runLoop_mem (exec : Nat → ExecResult) :
    ∀ (ss : List Step) (i el : Nat) (r : StepRec), r ∈ (runLoop exec ss i el).1 →
      (∃ s j o es dd, r = mkOk s j o es dd) ∨
      (∃ s j elp e o es dd, r = mkErr s j elp e o es dd) := by
  intro ss
  induction ss with
  | nil => intro i el r h; simp [runLoop] at h
  | cons s rest ih =>
    intro i el r h
    cases hx : exec i with
    | ok o2 s2 d2 =>
      rw [show (runLoop exec (s :: rest) i el).1 =
          mkOk s i o2 s2 d2 :: (runLoop exec rest (i + 1) (el + d2)).1 from by
        simp [runLoop, hx]] at h
      rcases List.mem_cons.mp h with h1 | h2
      · exact Or.inl ⟨s, i, o2, s2, d2, h1⟩
      · exact ih (i + 1) (el + d2) r h2
    | err e2 o2 s2 d2 =>
      rw [show (runLoop exec (s :: rest) i el).1 = [mkErr s i el e2 o2 s2 d2] from by
        simp [runLoop, hx]] at h
      exact Or.inr ⟨s, i, el, e2, o2, s2, d2, by simpa using h⟩

/-- C2, amended.  Every persisted StepResult of a *successful* step has
`output` at most 1000 characters and `stderr` at most 500.  (The claim's
universal version over failed steps too is false: see the
counterexample.) -/
theorem c2_success_truncation (exec : Nat → ExecResult) (did app env p st et : String)
    (steps : List Step) (running : Finset String) (f : FStep)
    (hf : f ∈ formatSteps (deployApp exec did app env p st et steps running).1.steps)
    (hs : f.status = "success") :
    f.output.length ≤ 1000 ∧ f.stderr.length ≤ 500 := by
  rw [deployApp_steps] at hf
  obtain ⟨j, r, hr, rfl⟩ := formatFrom_mem _ _ _ hf
  rcases runLoop_mem exec steps 0 0 r hr with ⟨s, jj, o, es, dd, rfl⟩ |
    ⟨s, jj, elp, e, o, es, dd, rfl⟩
  · constructor
    · simp only [formatStep, mkOk, jsOrD]
      split
      · decide
      · exact truncTail_length 1000 o
    · simp only [formatStep, mkOk]
      exact truncTail_length 500 es
  · simp [formatStep, mkErr] at hs

/-- Witness for C2's amended statement at a concrete successful step. -/
theorem c2_success_truncation_witness :
    (formatStep 0 (mkOk ⟨("build"), ("c1")⟩ 0 ("o") ("") 1) ∈
      formatSteps (deployApp execOkW ("d") ("a") ("b") ("p") ("s") ("t") stepsW ∅).1.steps) ∧
    ((formatStep 0 (mkOk ⟨("build"), ("c1")⟩ 0 ("o") ("") 1)).status = "success") ∧
    ((formatStep 0 (mkOk ⟨("build"), ("c1")⟩ 0 ("o") ("") 1)).output.length ≤ 1000 ∧
      (formatStep 0 (mkOk ⟨("build"), ("c1")⟩ 0 ("o") ("") 1)).stderr.length ≤ 500) :=
  ⟨by decide, by decide,
    c2_success_truncation execOkW ("d") ("a") ("b") ("p") ("s") ("t") stepsW ∅
      (formatStep 0 (mkOk ⟨("build"), ("c1")⟩ 0 ("o") ("") 1)) (by decide) (by decide)⟩

set_option maxRecDepth 8000 in
/-- Counterexample to C2 as stated: a run whose only step fails with a
1001-character stdout and a 501-character stderr persists a StepResult
whose `output` has 1001 characters and whose `stderr` has 501 — the
failure path of `deployApp` stores the captured streams untruncated and
`saveLog` persists them as-is via `step.output || step.stdout || ""`. -/
theorem c2_trunc_counterexample :
    ∃ f ∈ formatSteps (deployApp execC2 ("d") ("a") ("b") ("p") ("s") ("t")
        [⟨("s1"), ("c1")⟩] ∅).1.steps,
      1000 < f.output.length ∧ 500 < f.stderr.length := by
  refine ⟨formatStep 0 (mkErr ⟨("s1"), ("c1")⟩ 0 0 ("boom") bigOut bigErr 5), ?_, ?_, ?_⟩
  · decide
  · decide
  · decide

/-! ## C8: persistence failures are contained -/

/-- C8.  The persisted-or-not outcome of `saveLog` never reaches the run:
the returned record is the one `deployApp` finished before `saveLog` ran
(so a directory-creation or append error can neither change the run's
status nor propagate — `saveLog` catches internally and the model is a
total function of the `writeOk` verdict); the append touches only the
partition of the day the call is made (`saveKey`), whatever
`record.startTime` says; and a failed write leaves the filesystem
untouched. -/
theorem c8_persistence_isolated (exec : Nat → ExecResult) (did app env p st et : String)
    (steps : List Step) (running : Finset String)
    (writeOk : Bool) (saveKey : String) (fs : String → Option String) :
    ((deployAppFull exec did app env p st et steps running writeOk saveKey fs).1 =
      (deployApp exec did app env p st et steps running).1) ∧
    (∀ k, k ≠ saveKey →
      (deployAppFull exec did app env p st et steps running writeOk saveKey fs).2.2 k = fs k) ∧
    (writeOk = false →
      (deployAppFull exec did app env p st et steps running writeOk saveKey fs).2.2 = fs) := by
  refine ⟨rfl, ?_, ?_⟩
  · intro k hk
    by_cases hw : writeOk <;> simp [deployAppFull, saveLog, appendFS, hw, hk]
  · intro hw
    simp [deployAppFull, saveLog, hw]

/-- Witness for C8: a non-partition key is untouched, and a failed write
changes nothing. -/
theorem c8_persistence_isolated_witness :
    (("x" : String) ≠ ("k")) ∧
    ((deployAppFull execOkW ("d") ("a") ("b") ("p") ("s") ("t") stepsW ∅ true ("k")
        fsQ).2.2 ("x") = fsQ ("x")) ∧
    ((deployAppFull execOkW ("d") ("a") ("b") ("p") ("s") ("t") stepsW ∅ false ("k")
        fsQ).2.2 = fsQ) :=
  ⟨by decide,
    (c8_persistence_isolated execOkW ("d") ("a") ("b") ("p") ("s") ("t") stepsW ∅ true ("k")
      fsQ).2.1 ("x") (by decide),
    (c8_persistence_isolated execOkW ("d") ("a") ("b") ("p") ("s") ("t") stepsW ∅ false ("k")
      fsQ).2.2 rfl⟩

/-! ## Round-trip of the JSON value written by `saveLog` -/

theorem expectL_append : ∀ (ps rest : List Char), expectL ps (ps ++ rest) = some rest := by
  intro ps
  induction ps with
  | nil => intro rest; rfl
  | cons p ps ih => intro rest; simp [expectL, ih]

theorem digitChar_isDigit (d : Nat) (hd : d < 10) : (Nat.digitChar d).isDigit = true := by
  interval_cases d <;> decide

theorem digitChar_toNat (d : Nat) (hd : d < 10) : (Nat.digitChar d).toNat - 48 = d := by
  interval_cases d <;> decide

theorem natDigitsGo_zero_n (fuel : Nat) (acc : List Char) : natDigitsGo fuel 0 acc = acc := by
  cases fuel <;> rfl

theorem natDigitsGo_succ_fuel (fuel n : Nat) (acc : List Char) (h : n ≠ 0) :
    natDigitsGo (fuel + 1) n acc = natDigitsGo fuel (n / 10) (Nat.digitChar (n % 10) :: acc) := by
  simp [natDigitsGo, h]

theorem natDigitsGo_append :
    ∀ (fuel n : Nat) (acc1 acc2 : List Char),
      natDigitsGo fuel n (acc1 ++ acc2) = natDigitsGo fuel n acc1 ++ acc2 := by
  intro fuel
  induction fuel with
  | zero => intro n acc1 acc2; rfl
  | succ fuel ih =>
    intro n acc1 acc2
    by_cases h : n = 0
    · subst h; rw [natDigitsGo_zero_n, natDigitsGo_zero_n]
    · rw [natDigitsGo_succ_fuel _ _ _ h, natDigitsGo_succ_fuel _ _ _ h]
      rw [show (Nat.digitChar (n % 10) :: (acc1 ++ acc2)) =
        (Nat.digitChar (n % 10) :: acc1) ++ acc2 from rfl]
      exact ih (n / 10) _ acc2

theorem natDigitsGo_digits :
    ∀ (fuel n : Nat) (acc : List Char), (∀ c ∈ acc, c.isDigit = true) →
      ∀ c ∈ natDigitsGo fuel n acc, c.isDigit = true := by
  intro fuel
  induction fuel with
  | zero => intro n acc hacc c hc; exact hacc c hc
  | succ fuel ih =>
    intro n acc hacc c hc
    by_cases h : n = 0
    · subst h; rw [natDigitsGo_zero_n] at hc; exact hacc c hc
    · rw [natDigitsGo_succ_fuel _ _ _ h] at hc
      refine ih (n / 10) _ ?_ c hc
      intro c2 hc2
      rcases List.mem_cons.mp hc2 with h1 | h2
      · subst h1; exact digitChar_isDigit _ (Nat.mod_lt _ (by decide))
      · exact hacc c2 h2

theorem natDigitsGo_fuel :
    ∀ (n f1 f2 : Nat) (acc : List Char), n ≤ f1 → n ≤ f2 →
      natDigitsGo f1 n acc = natDigitsGo f2 n acc := by
  intro n
  induction n using Nat.strong_induction_on with
  | _ n ih =>
    intro f1 f2 acc h1 h2
    by_cases h : n = 0
    · subst h; rw [natDigitsGo_zero_n, natDigitsGo_zero_n]
    · have hd : n / 10 < n := Nat.div_lt_self (Nat.pos_of_ne_zero h) (by decide)
      obtain ⟨g1, rfl⟩ : ∃ g, f1 = g + 1 := ⟨f1 - 1, by omega⟩
      obtain ⟨g2, rfl⟩ : ∃ g, f2 = g + 1 := ⟨f2 - 1, by omega⟩
      rw [natDigitsGo_succ_fuel _ _ _ h, natDigitsGo_succ_fuel _ _ _ h]
      exact ih (n / 10) hd g1 g2 _ (by omega) (by omega)

theorem natDigits_decomp (n : Nat) (h : n ≠ 0) :
    natDigits n = natDigitsGo (n / 10) (n / 10) [] ++ [Nat.digitChar (n % 10)] := by
  have hd : n / 10 < n := Nat.div_lt_self (Nat.pos_of_ne_zero h) (by decide)
  obtain ⟨g, hg⟩ : ∃ g, n = g + 1 := ⟨n - 1, by omega⟩
  unfold natDigits
  rw [if_neg h]
  rw [show natDigitsGo n n [] = natDigitsGo (g + 1) n [] from by rw [← hg]]
  rw [natDigitsGo_succ_fuel _ _ _ h]
  rw [show (Nat.digitChar (n % 10) :: ([] : List Char)) = [] ++ [Nat.digitChar (n % 10)] from rfl]
  rw [natDigitsGo_append]
  rw [natDigitsGo_fuel (n / 10) g (n / 10) [] (by omega) (Nat.le_refl _)]
  simp

theorem natDigitsGo_self (m : Nat) (hm : m ≠ 0) : natDigitsGo m m [] = natDigits m := by
  unfold natDigits
  rw [if_neg hm]

theorem natDigits_digits (n : Nat) : ∀ c ∈ natDigits n, c.isDigit = true := by
  unfold natDigits
  split
  · intro c hc; simp at hc; subst hc; decide
  · exact natDigitsGo_digits n n [] (by simp)

theorem natDigits_ne_nil (n : Nat) : natDigits n ≠ [] := by
  by_cases h : n = 0
  · subst h; decide
  · rw [natDigits_decomp n h]
    simp

theorem natDigits_val : ∀ n : Nat, List.foldl decAcc 0 (natDigits n) = n := by
  intro n
  induction n using Nat.strong_induction_on with
  | _ n ih =>
    by_cases h : n = 0
    · subst h; decide
    · rw [natDigits_decomp n h, List.foldl_append]
      by_cases h10 : n / 10 = 0
      · rw [h10, natDigitsGo_zero_n]
        simp only [List.foldl_nil, List.foldl_cons]
        unfold decAcc
        rw [digitChar_toNat _ (Nat.mod_lt _ (by decide))]
        omega
      · rw [natDigitsGo_self _ h10]
        rw [ih (n / 10) (Nat.div_lt_self (Nat.pos_of_ne_zero h) (by decide))]
        simp only [List.foldl_cons, List.foldl_nil]
        unfold decAcc
        rw [digitChar_toNat _ (Nat.mod_lt _ (by decide))]
        omega

theorem digitsAux_append :
    ∀ (ds : List Char) (a : Nat) (rest : List Char), (∀ c ∈ ds, c.isDigit = true) →
      noDigitHead rest → digitsAux a (ds ++ rest) = (List.foldl decAcc a ds, rest) := by
  intro ds
  induction ds with
  | nil =>
    intro a rest _ hrest
    cases rest with
    | nil => rfl
    | cons c cs =>
      have hc : c.isDigit = false := hrest
      simp [digitsAux, hc]
  | cons d ds ih =>
    intro a rest hds hrest
    have hd : d.isDigit = true := hds d (by simp)
    rw [List.cons_append]
    rw [show digitsAux a (d :: (ds ++ rest)) =
      digitsAux (a * 10 + (d.toNat - 48)) (ds ++ rest) from by simp [digitsAux, hd]]
    rw [ih _ rest (fun c hc => hds c (by simp [hc])) hrest]
    simp [decAcc]

theorem parseNatL_round (n : Nat) (rest : List Char) (hrest : noDigitHead rest) :
    parseNatL (natDigits n ++ rest) = some (n, rest) := by
  cases hN : natDigits n with
  | nil => exact absurd hN (natDigits_ne_nil n)
  | cons c ds =>
    have hc : c.isDigit = true := by
      have := natDigits_digits n c (by rw [hN]; simp)
      exact this
    rw [List.cons_append]
    rw [show parseNatL (c :: (ds ++ rest)) = some (digitsAux 0 (c :: (ds ++ rest))) from by
      simp [parseNatL, hc]]
    rw [show (c :: (ds ++ rest)) = (c :: ds) ++ rest from rfl]
    rw [digitsAux_append (c :: ds) 0 rest (by rw [← hN]; exact natDigits_digits n) hrest]
    rw [← hN, natDigits_val n]

theorem hexVal_hexDigitChar (d : Nat) (hd : d < 16) : hexVal (hexDigitChar d) = some d := by
  interval_cases d <;> decide

theorem psb_close (X : List Char) : parseStrBody ('"' :: X) = some ([], X) := rfl

theorem psb_esc_quote (X : List Char) :
    parseStrBody ('\\' :: '"' :: X) = (parseStrBody X).map (fun r => ('"' :: r.1, r.2)) := rfl

theorem psb_esc_back (X : List Char) :
    parseStrBody ('\\' :: '\\' :: X) = (parseStrBody X).map (fun r => ('\\' :: r.1, r.2)) := rfl

theorem psb_esc_b (X : List Char) :
    parseStrBody ('\\' :: 'b' :: X) = (parseStrBody X).map (fun r => ('\x08' :: r.1, r.2)) := rfl

theorem psb_esc_f (X : List Char) :
    parseStrBody ('\\' :: 'f' :: X) = (parseStrBody X).map (fun r => ('\x0c' :: r.1, r.2)) := rfl

theorem psb_esc_n (X : List Char) :
    parseStrBody ('\\' :: 'n' :: X) = (parseStrBody X).map (fun r => ('\n' :: r.1, r.2)) := rfl

theorem psb_esc_r (X : List Char) :
    parseStrBody ('\\' :: 'r' :: X) = (parseStrBody X).map (fun r => ('\r' :: r.1, r.2)) := rfl

theorem psb_esc_t (X : List Char) :
    parseStrBody ('\\' :: 't' :: X) = (parseStrBody X).map (fun r => ('\t' :: r.1, r.2)) := rfl

theorem psb_esc_u (h1 h2 h3 h4 : Char) (v1 v2 v3 v4 : Nat) (X : List Char)
    (e1 : hexVal h1 = some v1) (e2 : hexVal h2 = some v2)
    (e3 : hexVal h3 = some v3) (e4 : hexVal h4 = some v4) :
    parseStrBody ('\\' :: 'u' :: h1 :: h2 :: h3 :: h4 :: X) =
      (parseStrBody X).map
        (fun r => (Char.ofNat (((v1 * 16 + v2) * 16 + v3) * 16 + v4) :: r.1, r.2)) := by
  simp [parseStrBody, parseEsc, parseEscU, e1, e2, e3, e4]

theorem psb_plain (c : Char) (hq : c ≠ '"') (hb : c ≠ '\\') (X : List Char) :
    parseStrBody (c :: X) = (parseStrBody X).map (fun r => (c :: r.1, r.2)) := by
  simp [parseStrBody, hq, hb]

theorem parseStrBody_escL :
    ∀ (cs rest : List Char), parseStrBody (escL cs ++ ('"' :: rest)) = some (cs, rest) := by
  intro cs
  induction cs with
  | nil => intro rest; simp [escL, psb_close]
  | cons c cs ih =>
    intro rest
    rw [show escL (c :: cs) = escCharL c ++ escL cs from rfl, List.append_assoc]
    by_cases h1 : c = '"'
    · subst h1
      rw [show escCharL '"' = ['\\', '"'] from rfl]
      rw [show (['\\', '"'] : List Char) ++ (escL cs ++ '"' :: rest) =
        '\\' :: '"' :: (escL cs ++ '"' :: rest) from rfl]
      rw [psb_esc_quote, ih rest]
      rfl
    · by_cases h2 : c = '\\'
      · subst h2
        rw [show escCharL '\\' = ['\\', '\\'] from by rfl]
        rw [show (['\\', '\\'] : List Char) ++ (escL cs ++ '"' :: rest) =
          '\\' :: '\\' :: (escL cs ++ '"' :: rest) from rfl]
        rw [psb_esc_back, ih rest]
        rfl
      · by_cases h3 : c = '\x08'
        · subst h3
          rw [show escCharL '\x08' = ['\\', 'b'] from by rfl]
          rw [show (['\\', 'b'] : List Char) ++ (escL cs ++ '"' :: rest) =
            '\\' :: 'b' :: (escL cs ++ '"' :: rest) from rfl]
          rw [psb_esc_b, ih rest]
          rfl
        · by_cases h4 : c = '\x0c'
          · subst h4
            rw [show escCharL '\x0c' = ['\\', 'f'] from by rfl]
            rw [show (['\\', 'f'] : List Char) ++ (escL cs ++ '"' :: rest) =
              '\\' :: 'f' :: (escL cs ++ '"' :: rest) from rfl]
            rw [psb_esc_f, ih rest]
            rfl
          · by_cases h5 : c = '\n'
            · subst h5
              rw [show escCharL '\n' = ['\\', 'n'] from by rfl]
              rw [show (['\\', 'n'] : List Char) ++ (escL cs ++ '"' :: rest) =
                '\\' :: 'n' :: (escL cs ++ '"' :: rest) from rfl]
              rw [psb_esc_n, ih rest]
              rfl
            · by_cases h6 : c = '\r'
              · subst h6
                rw [show escCharL '\r' = ['\\', 'r'] from by rfl]
                rw [show (['\\', 'r'] : List Char) ++ (escL cs ++ '"' :: rest) =
                  '\\' :: 'r' :: (escL cs ++ '"' :: rest) from rfl]
                rw [psb_esc_r, ih rest]
                rfl
              · by_cases h7 : c = '\t'
                · subst h7
                  rw [show escCharL '\t' = ['\\', 't'] from by rfl]
                  rw [show (['\\', 't'] : List Char) ++ (escL cs ++ '"' :: rest) =
                    '\\' :: 't' :: (escL cs ++ '"' :: rest) from rfl]
                  rw [psb_esc_t, ih rest]
                  rfl
                · by_cases h8 : c.toNat < 32
                  · rw [show escCharL c = ['\\', 'u', '0', '0',
                      hexDigitChar (c.toNat / 16), hexDigitChar (c.toNat % 16)] from by
                      simp [escCharL, h1, h2, h3, h4, h5, h6, h7, h8]]
                    rw [show (['\\', 'u', '0', '0', hexDigitChar (c.toNat / 16),
                        hexDigitChar (c.toNat % 16)] : List Char) ++ (escL cs ++ '"' :: rest) =
                      '\\' :: 'u' :: '0' :: '0' :: hexDigitChar (c.toNat / 16) ::
                        hexDigitChar (c.toNat % 16) :: (escL cs ++ '"' :: rest) from rfl]
                    rw [psb_esc_u '0' '0' (hexDigitChar (c.toNat / 16))
                      (hexDigitChar (c.toNat % 16)) 0 0 (c.toNat / 16) (c.toNat % 16) _
                      (by decide) (by decide)
                      (hexVal_hexDigitChar _ (by omega))
                      (hexVal_hexDigitChar _ (Nat.mod_lt _ (by decide)))]
                    rw [ih rest]
                    have hval : ((0 * 16 + 0) * 16 + c.toNat / 16) * 16 + c.toNat % 16 =
                        c.toNat := by omega
                    rw [hval, Char.ofNat_toNat]
                    rfl
                  · rw [show escCharL c = [c] from by
                      simp [escCharL, h1, h2, h3, h4, h5, h6, h7, h8]]
                    rw [show ([c] : List Char) ++ (escL cs ++ '"' :: rest) =
                      c :: (escL cs ++ '"' :: rest) from rfl]
                    rw [psb_plain c h1 h2, ih rest]
                    rfl

theorem key_quote (k kq : String) (hk : kq.data = k.data ++ ['"']) (s : String) (X : List Char) :
    k.data ++ (quoteL s ++ X) = kq.data ++ (escL s.data ++ ('"' :: X)) := by
  rw [hk, quoteL]
  simp

theorem kqName (s : String) (X : List Char) :
    [',', '"', 'n', 'a', 'm', 'e', '"', ':'] ++ (quoteL s ++ X) =
      [',', '"', 'n', 'a', 'm', 'e', '"', ':', '"'] ++ (escL s.data ++ ('"' :: X)) :=
  key_quote (",\"name\":") (",\"name\":\"") rfl s X

theorem kqCommand (s : String) (X : List Char) :
    [',', '"', 'c', 'o', 'm', 'm', 'a', 'n', 'd', '"', ':'] ++ (quoteL s ++ X) =
      [',', '"', 'c', 'o', 'm', 'm', 'a', 'n', 'd', '"', ':', '"'] ++
        (escL s.data ++ ('"' :: X)) :=
  key_quote (",\"command\":") (",\"command\":\"") rfl s X

theorem kqStatus (s : String) (X : List Char) :
    [',', '"', 's', 't', 'a', 't', 'u', 's', '"', ':'] ++ (quoteL s ++ X) =
      [',', '"', 's', 't', 'a', 't', 'u', 's', '"', ':', '"'] ++ (escL s.data ++ ('"' :: X)) :=
  key_quote (",\"status\":") (",\"status\":\"") rfl s X

theorem kqOutput (s : String) (X : List Char) :
    [',', '"', 'o', 'u', 't', 'p', 'u', 't', '"', ':'] ++ (quoteL s ++ X) =
      [',', '"', 'o', 'u', 't', 'p', 'u', 't', '"', ':', '"'] ++ (escL s.data ++ ('"' :: X)) :=
  key_quote (",\"output\":") (",\"output\":\"") rfl s X

theorem kqStderr (s : String) (X : List Char) :
    [',', '"', 's', 't', 'd', 'e', 'r', 'r', '"', ':'] ++ (quoteL s ++ X) =
      [',', '"', 's', 't', 'd', 'e', 'r', 'r', '"', ':', '"'] ++ (escL s.data ++ ('"' :: X)) :=
  key_quote (",\"stderr\":") (",\"stderr\":\"") rfl s X

theorem kqError (s : String) (X : List Char) :
    [',', '"', 'e', 'r', 'r', 'o', 'r', '"', ':'] ++ (quoteL s ++ X) =
      [',', '"', 'e', 'r', 'r', 'o', 'r', '"', ':', '"'] ++ (escL s.data ++ ('"' :: X)) :=
  key_quote (",\"error\":") (",\"error\":\"") rfl s X

theorem ndhName (X : List Char) :
    noDigitHead ([',', '"', 'n', 'a', 'm', 'e', '"', ':'] ++ X) := rfl

theorem ndhName9 (X : List Char) :
    noDigitHead ([',', '"', 'n', 'a', 'm', 'e', '"', ':', '"'] ++ X) := rfl

theorem ndhOutput (X : List Char) :
    noDigitHead ([',', '"', 'o', 'u', 't', 'p', 'u', 't', '"', ':'] ++ X) := rfl

theorem ndhOutput9 (X : List Char) :
    noDigitHead ([',', '"', 'o', 'u', 't', 'p', 'u', 't', '"', ':', '"'] ++ X) := rfl

set_option maxHeartbeats 3200000 in
theorem parseFStep_round (f : FStep) (rest : List Char) :
    parseFStep (fstepJsonL f ++ rest) = some (f, rest) := by
  conv_lhs => arg 1; simp only [fstepJsonL, List.append_assoc]
  unfold parseFStep parseFStepStrTail
  rw [expectL_append]
  simp only [Option.some_bind]
  rw [parseNatL_round _ _ (ndhName _)]
  simp only [Option.some_bind]
  rw [kqName, expectL_append]
  simp only [Option.some_bind]
  rw [parseStrBody_escL]
  simp only [Option.some_bind]
  rw [kqCommand, expectL_append]
  simp only [Option.some_bind]
  rw [parseStrBody_escL]
  simp only [Option.some_bind]
  rw [kqStatus, expectL_append]
  simp only [Option.some_bind]
  rw [parseStrBody_escL]
  simp only [Option.some_bind]
  rw [expectL_append]
  simp only [Option.some_bind]
  rw [parseNatL_round _ _ (ndhOutput _)]
  simp only [Option.some_bind]
  rw [kqOutput, expectL_append]
  simp only [Option.some_bind]
  rw [parseStrBody_escL]
  simp only [Option.some_bind]
  rw [kqStderr, expectL_append]
  simp only [Option.some_bind]
  rw [parseStrBody_escL]
  simp only [Option.some_bind]
  rw [kqError, expectL_append]
  simp only [Option.some_bind]
  rw [parseStrBody_escL]
  simp only [Option.some_bind]
  rw [expectL_append]
  simp only [Option.some_bind]

theorem fstepJsonL_head (f : FStep) : ∃ t, fstepJsonL f = '\x7b' :: t :=
  ⟨_, rfl⟩

theorem fstepsJsonL_head (f : FStep) (fs : List FStep) :
    ∃ t, fstepsJsonL (f :: fs) = '\x7b' :: t := by
  obtain ⟨t, ht⟩ := fstepJsonL_head f
  cases fs with
  | nil => exact ⟨t, ht⟩
  | cons f2 fs2 =>
    refine ⟨t ++ ',' :: fstepsJsonL (f2 :: fs2), ?_⟩
    rw [show fstepsJsonL (f :: f2 :: fs2) =
      fstepJsonL f ++ ',' :: fstepsJsonL (f2 :: fs2) from rfl, ht]
    rfl

theorem fstepsJsonL_length_ge :
    ∀ l : List FStep, l ≠ [] → l.length ≤ (fstepsJsonL l).length := by
  intro l
  induction l with
  | nil => intro h; exact absurd rfl h
  | cons f fs ih =>
    intro _
    obtain ⟨t, ht⟩ := fstepJsonL_head f
    cases fs with
    | nil =>
      rw [show fstepsJsonL [f] = fstepJsonL f from rfl, ht]
      simp
    | cons f2 fs2 =>
      have := ih (by simp)
      rw [show fstepsJsonL (f :: f2 :: fs2) =
        fstepJsonL f ++ ',' :: fstepsJsonL (f2 :: fs2) from rfl, ht]
      simp only [List.length_cons, List.length_append] at this ⊢
      omega

theorem parseArrAux_round :
    ∀ (l : List FStep) (rest : List Char) (fuel : Nat), l ≠ [] → l.length ≤ fuel →
      parseArrAux fuel (fstepsJsonL l ++ (']' :: rest)) = some (l, rest) := by
  intro l
  induction l with
  | nil => intro rest fuel h; exact absurd rfl h
  | cons f fs ih =>
    intro rest fuel _ hfuel
    obtain ⟨g, rfl⟩ : ∃ g, fuel = g + 1 := ⟨fuel - 1, by simp at hfuel; omega⟩
    cases fs with
    | nil =>
      show parseArrAux (g + 1) (fstepJsonL f ++ (']' :: rest)) = some ([f], rest)
      simp only [parseArrAux]
      rw [parseFStep_round f (']' :: rest)]
      rfl
    | cons f2 fs2 =>
      rw [show fstepsJsonL (f :: f2 :: fs2) =
        fstepJsonL f ++ ',' :: fstepsJsonL (f2 :: fs2) from rfl]
      rw [List.append_assoc, List.cons_append]
      simp only [parseArrAux]
      rw [parseFStep_round f (',' :: (fstepsJsonL (f2 :: fs2) ++ ']' :: rest))]
      have hrec := ih rest g (by simp) (by simp at hfuel ⊢; omega)
      simp only [hrec]

theorem parseStepsL_round (fs : List FStep) : parseStepsL (stepsJsonL fs) = some fs := by
  cases fs with
  | nil => rfl
  | cons f fs2 =>
    obtain ⟨t, ht⟩ := fstepsJsonL_head f fs2
    have hlen : (f :: fs2).length ≤ ('\x7b' :: t).length + 1 := by
      have h1 := fstepsJsonL_length_ge (f :: fs2) (by simp)
      rw [ht] at h1
      omega
    rw [show stepsJsonL (f :: fs2) = '[' :: (fstepsJsonL (f :: fs2) ++ [']']) from rfl, ht]
    rw [List.cons_append]
    rw [show parseStepsL ('[' :: '\x7b' :: (t ++ [']'])) =
      (match parseArrAux (('\x7b' :: (t ++ [']'])).length + 1) ('\x7b' :: (t ++ [']'])) with
        | some (fs3, rest2) => if rest2 = [] then some fs3 else none
        | none => none) from rfl]
    have hfuel2 : (f :: fs2).length ≤ ('\x7b' :: (t ++ [']'])).length + 1 := by
      simp only [List.length_cons, List.length_append] at hlen ⊢
      omega
    rw [show ('\x7b' :: (t ++ [']'])) = ('\x7b' :: t) ++ (']' :: []) from by simp]
    rw [← ht]
    rw [parseArrAux_round (f :: fs2) [] _ (by simp) (by
      rw [ht]
      simpa using hfuel2)]
    rfl

/-! ## Line-level lemmas: splitting, trimming, first colon -/

theorem notin_append {α} {a : α} {s t : List α} (hs : a ∉ s) (ht : a ∉ t) : a ∉ s ++ t :=
  fun h => (List.mem_append.mp h).elim hs ht

theorem splitNL_no_nl : ∀ l : List Char, '\n' ∉ l → splitNL l = [l] := by
  intro l
  induction l with
  | nil => intro _; rfl
  | cons c cs ih =>
    intro h
    have hc : ¬(c = '\n') := fun he => h (by simp [he])
    have hcs : '\n' ∉ cs := fun he => h (by simp [he])
    simp [splitNL, hc, ih hcs]

theorem splitNL_append : ∀ (a b : List Char), '\n' ∉ a →
    splitNL (a ++ '\n' :: b) = a :: splitNL b := by
  intro a
  induction a with
  | nil => intro b _; simp [splitNL]
  | cons c cs ih =>
    intro b h
    have hc : ¬(c = '\n') := fun he => h (by simp [he])
    have hcs : '\n' ∉ cs := fun he => h (by simp [he])
    simp [splitNL, hc, ih b hcs]

theorem jsTrimL_cons_ws (c : Char) (l : List Char) (hc : isWsJS c = true) :
    jsTrimL (c :: l) = jsTrimL l := by
  simp [jsTrimL, List.dropWhile_cons, hc]

theorem jsTrimL_eq_self (l : List Char)
    (h1 : ∀ c ∈ l.head?, isWsJS c = false) (h2 : ∀ c ∈ l.getLast?, isWsJS c = false) :
    jsTrimL l = l := by
  cases l with
  | nil => rfl
  | cons c cs =>
    have hc : isWsJS c = false := h1 c rfl
    unfold jsTrimL
    rw [List.dropWhile_cons_of_neg (by simp [hc])]
    cases hrev : (c :: cs).reverse with
    | nil => exact absurd hrev (by simp)
    | cons d ds =>
      have hd : isWsJS d = false := by
        refine h2 d ?_
        rw [List.getLast?_eq_head?_reverse, hrev]
        rfl
      have hdw : List.dropWhile isWsJS (d :: ds) = d :: ds :=
        List.dropWhile_cons_of_neg (by simp [hd])
      rw [hdw, ← hrev, List.reverse_reverse]

theorem jsTrimL_ne_nil (l : List Char) (c : Char) (hc : c ∈ l) (hw : isWsJS c = false) :
    jsTrimL l ≠ [] := by
  intro he
  unfold jsTrimL at he
  rw [List.reverse_eq_nil_iff, List.dropWhile_eq_nil_iff] at he
  have hcd : c ∈ List.dropWhile isWsJS l := by
    have hsplit := List.takeWhile_append_dropWhile (p := isWsJS) (l := l)
    rw [← hsplit] at hc
    rcases List.mem_append.mp hc with h1 | h2
    · exact absurd (List.mem_takeWhile_imp h1) (by simp [hw])
    · exact h2
  have := he c (by simpa using hcd)
  rw [hw] at this
  exact Bool.false_ne_true this

theorem idxOfColon_append : ∀ (a b : List Char), ':' ∉ a →
    idxOfColon (a ++ ':' :: b) = some a.length := by
  intro a
  induction a with
  | nil => intro b _; simp [idxOfColon]
  | cons c cs ih =>
    intro b h
    have hc : ¬(c = ':') := fun he => h (by simp [he])
    have hcs : ':' ∉ cs := fun he => h (by simp [he])
    simp [idxOfColon, fun he => hc (by simpa using he), ih b hcs]

/-! ## No raw newline in the serialized value -/

theorem hexDigitChar_ne_nl (d : Nat) : hexDigitChar d ≠ '\n' := by
  unfold hexDigitChar
  split <;> decide

theorem nl_notin_escCharL (c : Char) : '\n' ∉ escCharL c := by
  unfold escCharL
  split_ifs with h1 h2 h3 h4 h5 h6 h7 h8
  · decide
  · decide
  · decide
  · decide
  · decide
  · decide
  · decide
  · intro hm
    simp only [List.mem_cons] at hm
    rcases hm with h | h | h | h | h | h | h
    · exact absurd h.symm (by decide)
    · exact absurd h.symm (by decide)
    · exact absurd h.symm (by decide)
    · exact absurd h.symm (by decide)
    · exact (hexDigitChar_ne_nl _) h.symm
    · exact (hexDigitChar_ne_nl _) h.symm
    · simp at h
  · intro hm
    simp only [List.mem_singleton] at hm
    exact h5 hm.symm

theorem nl_notin_escL : ∀ s : List Char, '\n' ∉ escL s := by
  intro s
  induction s with
  | nil => simp [escL]
  | cons c cs ih => exact notin_append (nl_notin_escCharL c) ih

theorem nl_notin_quoteL (s : String) : '\n' ∉ quoteL s := by
  unfold quoteL
  intro hm
  rcases List.mem_cons.mp hm with h | h
  · exact absurd h.symm (by decide)
  · rcases List.mem_append.mp h with h2 | h2
    · exact nl_notin_escL s.data h2
    · simp at h2

theorem nl_notin_natDigits (n : Nat) : '\n' ∉ natDigits n := by
  intro hm
  have := natDigits_digits n '\n' hm
  exact absurd this (by decide)

theorem nl_notin_fstepJsonL (f : FStep) : '\n' ∉ fstepJsonL f := by
  unfold fstepJsonL
  refine notin_append ?_ (by decide)
  refine notin_append ?_ (nl_notin_quoteL _)
  refine notin_append ?_ (by decide)
  refine notin_append ?_ (nl_notin_quoteL _)
  refine notin_append ?_ (by decide)
  refine notin_append ?_ (nl_notin_quoteL _)
  refine notin_append ?_ (by decide)
  refine notin_append ?_ (nl_notin_natDigits _)
  refine notin_append ?_ (by decide)
  refine notin_append ?_ (nl_notin_quoteL _)
  refine notin_append ?_ (by decide)
  refine notin_append ?_ (nl_notin_quoteL _)
  refine notin_append ?_ (by decide)
  refine notin_append ?_ (nl_notin_quoteL _)
  refine notin_append ?_ (by decide)
  exact notin_append (by decide) (nl_notin_natDigits _)

theorem nl_notin_fstepsJsonL : ∀ fs : List FStep, '\n' ∉ fstepsJsonL fs := by
  intro fs
  induction fs with
  | nil => simp [fstepsJsonL]
  | cons f fs2 ih =>
    cases fs2 with
    | nil => exact nl_notin_fstepJsonL f
    | cons g gs =>
      rw [show fstepsJsonL (f :: g :: gs) = fstepJsonL f ++ ',' :: fstepsJsonL (g :: gs)
        from rfl]
      refine notin_append (nl_notin_fstepJsonL f) ?_
      intro hm
      rcases List.mem_cons.mp hm with h | h
      · exact absurd h.symm (by decide)
      · exact ih h

theorem nl_notin_stepsJsonL (fs : List FStep) : '\n' ∉ stepsJsonL fs := by
  unfold stepsJsonL
  intro hm
  rcases List.mem_cons.mp hm with h | h
  · exact absurd h.symm (by decide)
  · rcases List.mem_append.mp h with h2 | h2
    · exact nl_notin_fstepsJsonL fs h2
    · simp at h2

/-! ## Head and last character of the serialized array -/

theorem stepsJsonL_head (fs : List FStep) : (stepsJsonL fs).head? = some '[' := rfl

theorem stepsJsonL_last (fs : List FStep) : (stepsJsonL fs).getLast? = some ']' := by
  unfold stepsJsonL
  rw [show ('[' :: (fstepsJsonL fs ++ [']'])) = ('[' :: fstepsJsonL fs) ++ [']'] from by simp]
  exact List.getLast?_concat _

theorem jsTrimL_stepsJsonL (fs : List FStep) :
    jsTrimL (stepsJsonL fs) = stepsJsonL fs := by
  refine jsTrimL_eq_self _ ?_ ?_
  · rw [stepsJsonL_head]
    intro c hc
    simp at hc
    subst hc
    decide
  · rw [stepsJsonL_last]
    intro c hc
    simp at hc
    subst hc
    decide

/-! ## The full line round-trip -/

theorem parseLineL_logLine (id : String) (json : List Char) (fs : List FStep)
    (h1 : ':' ∉ id.data)
    (hjson : parseStepsL (jsTrimL (' ' :: json)) = some fs) :
    parseLineL (id.data ++ (':' :: ' ' :: json)) =
      some { deployId := ⟨jsTrimL id.data⟩, steps := fs } := by
  unfold parseLineL
  rw [idxOfColon_append _ _ h1]
  have hdrop : (id.data ++ (':' :: ' ' :: json)).drop (id.data.length + 1) = ' ' :: json := by
    rw [show id.data ++ (':' :: ' ' :: json) = (id.data ++ [':']) ++ (' ' :: json) from by simp]
    exact List.drop_left' (by simp)
  have htake : (id.data ++ (':' :: ' ' :: json)).take id.data.length = id.data :=
    List.take_left _ _
  simp only [hdrop, htake, hjson]

theorem parseLogFile_logLine (id : String) (rs : List StepRec)
    (h1 : ':' ∉ id.data) (h2 : '\n' ∉ id.data) :
    parseLogFile (logLine id rs) =
      [{ deployId := ⟨jsTrimL id.data⟩, steps := formatSteps rs }] := by
  have hnl : '\n' ∉ (id.data ++ (": ").data) ++ stepsJsonL (formatSteps rs) :=
    notin_append (notin_append h2 (by decide)) (nl_notin_stepsJsonL _)
  have hjson : parseStepsL (jsTrimL (' ' :: stepsJsonL (formatSteps rs))) =
      some (formatSteps rs) := by
    rw [jsTrimL_cons_ws _ _ (by decide), jsTrimL_stepsJsonL, parseStepsL_round]
  have hkeep : (!(jsTrimL ((id.data ++ (": ").data) ++
      stepsJsonL (formatSteps rs))).isEmpty) = true := by
    have hni := jsTrimL_ne_nil ((id.data ++ (": ").data) ++ stepsJsonL (formatSteps rs)) ':'
      (by simp) (by decide)
    cases hje : jsTrimL ((id.data ++ (": ").data) ++ stepsJsonL (formatSteps rs)) with
    | nil => exact absurd hje hni
    | cons x xs => rfl
  unfold parseLogFile
  rw [show (logLine id rs).data =
    ((id.data ++ (": ").data) ++ stepsJsonL (formatSteps rs)) ++ '\n' :: [] from rfl]
  rw [splitNL_append _ _ hnl]
  rw [show splitNL [] = [[]] from rfl]
  rw [show ([] :: [] : List (List Char)) = [[]] from rfl]
  simp only [List.filter_cons, hkeep, List.filter_nil]
  rw [show (!(jsTrimL ([] : List Char)).isEmpty) = false from rfl]
  simp only [if_true, if_false, List.filterMap_cons, List.filterMap_nil]
  rw [show (id.data ++ (": ").data) ++ stepsJsonL (formatSteps rs) =
    id.data ++ (':' :: ' ' :: stepsJsonL (formatSteps rs)) from by simp]
  rw [parseLineL_logLine id _ _ h1 hjson]
  rfl

theorem formatFrom_getD :
    ∀ (rs : List StepRec) (i k : Nat), k < rs.length →
      (formatFrom i rs).getD k fStepD = formatStep (i + k) (rs.getD k dStep) := by
  intro rs
  induction rs with
  | nil => intro i k hk; simp at hk
  | cons r rest ih =>
    intro i k hk
    cases k with
    | zero => simp [formatFrom]
    | succ k2 =>
      have hk2 : k2 < rest.length := by simpa using Nat.lt_of_succ_lt_succ hk
      rw [show formatFrom i (r :: rest) = formatStep i r :: formatFrom (i + 1) rest from rfl]
      simp only [List.getD_cons_succ]
      rw [ih (i + 1) k2 hk2]
      congr 1
      omega

/-! ## C3: the round-trip of a persisted run -/

/-- C3, amended.  Appending a run record's steps with `saveLog` and parsing
the line back with `parseLogFile` reproduces, for each step, the `name`,
`command`, `status` and `duration` values exactly, and stores the step's
position as a 0-based `step` field — the 1-based `order` field of the
in-memory StepResult is not persisted at all (for records produced by
`deployApp`, `step = order - 1`).  The deployId must contain no colon
(the parser splits at the first colon) and no newline (a newline would
break the line in two); the parsed deployId is the trimmed one. -/
theorem c3_roundtrip (id : String) (rs : List StepRec)
    (h1 : ':' ∉ id.data) (h2 : '\n' ∉ id.data) :
    (parseLogFile (logLine id rs) =
      [{ deployId := ⟨jsTrimL id.data⟩, steps := formatSteps rs }]) ∧
    (∀ k, k < rs.length →
      ((formatSteps rs).getD k fStepD).name = (rs.getD k dStep).name ∧
      ((formatSteps rs).getD k fStepD).command = (rs.getD k dStep).command ∧
      ((formatSteps rs).getD k fStepD).status = (rs.getD k dStep).status ∧
      ((formatSteps rs).getD k fStepD).duration = (rs.getD k dStep).duration ∧
      ((formatSteps rs).getD k fStepD).step = k) := by
  constructor
  · exact parseLogFile_logLine id rs h1 h2
  · intro k hk
    unfold formatSteps
    rw [formatFrom_getD rs 0 k hk]
    simp [formatStep]

/-- Counterexample to C3 as stated: a StepResult whose `order` is 5
round-trips to a persisted record whose only ordinal field is the 0-based
list position `step = 0`; the value 5 is nowhere in the parsed record, so
the round-trip does not reproduce `order`. -/
theorem c3_order_counterexample :
    parseLogFile (logLine ("d") [rOrder5]) =
      [{ deployId := "d",
         steps := [{ step := 0, name := "n", command := "c", status := "success",
                     duration := 7, output := "o", stderr := "e", error := "" }] }] ∧
    rOrder5.order = 5 ∧
    (∀ l ∈ parseLogFile (logLine ("d") [rOrder5]), ∀ f ∈ l.steps, f.step ≠ rOrder5.order) := by
  refine ⟨by decide, by decide, by decide⟩

/-- Witness for C3's amended statement at a concrete one-step record. -/
theorem c3_roundtrip_witness :
    (':' ∉ ("a-b-1").data) ∧ ('\n' ∉ ("a-b-1").data) ∧
    parseLogFile (logLine ("a-b-1") rsW) =
      [{ deployId := ⟨jsTrimL ("a-b-1").data⟩, steps := formatSteps rsW }] :=
  ⟨by decide, by decide, (c3_roundtrip ("a-b-1") rsW (by decide) (by decide)).1⟩

/-! ## C6: the by-id backward search -/

theorem searchBackFrom_eq_scanDays (fs : Int → Option String) (today : Int) (target : String) :
    ∀ (n i : Nat), searchBackFrom fs today target i n =
      scanDays fs today target (List.range' i n) := by
  intro n
  induction n with
  | zero => intro i; rfl
  | succ n2 ih =>
    intro i
    rw [show List.range' i (n2 + 1) = i :: List.range' (i + 1) n2 from rfl]
    cases h : dayHit fs (today - (i : Int)) target with
    | some l => simp [searchBackFrom, scanDays, h]
    | none => simp [searchBackFrom, scanDays, h, ih (i + 1)]

theorem findById_eq_scanDays (fs : Int → Option String) (today : Int) (target : String) :
    findById fs today target = scanDays fs today target (List.range 8) := by
  rw [List.range_eq_range']
  rw [show List.range' 0 8 = 0 :: List.range' 1 7 from rfl]
  unfold findById
  cases h : dayHit fs today target with
  | some l => simp [scanDays, h]
  | none => simp [scanDays, h, searchBackFrom_eq_scanDays fs today target 7 1]

theorem scanDays_none (fs : Int → Option String) (today : Int) (target : String) :
    ∀ days : List Nat, (∀ i ∈ days, dayHit fs (today - (i : Int)) target = none) →
      scanDays fs today target days = none := by
  intro days
  induction days with
  | nil => intro _; rfl
  | cons i is ih =>
    intro h
    have h0 := h i (by simp)
    simp [scanDays, h0, ih (fun j hj => h j (by simp [hj]))]

/-- C6.  `findById` is exactly the first match of the day scan over the
offsets 0..7 (today first, then one partition per preceding calendar day);
an id whose only hit is yesterday's partition is found, and an id absent
from the whole 8-day window (for instance one present only 8 days back)
yields not-found. -/
theorem c6_find_by_id (fs : Int → Option String) (today : Int) (target : String) :
    (findById fs today target = scanDays fs today target (List.range 8)) ∧
    (∀ l, dayHit fs (today - 1) target = some l → dayHit fs today target = none →
      findById fs today target = some l) ∧
    ((∀ i : Nat, i ≤ 7 → dayHit fs (today - (i : Int)) target = none) →
      findById fs today target = none) := by
  refine ⟨findById_eq_scanDays fs today target, ?_, ?_⟩
  · intro l h1 h0
    unfold findById
    rw [h0]
    show (match dayHit fs (today - ((1 : Nat) : Int)) target with
      | some l2 => some l2
      | none => searchBackFrom fs today target 2 6) = some l
    rw [show ((1 : Nat) : Int) = (1 : Int) from rfl, h1]
  · intro h
    rw [findById_eq_scanDays]
    refine scanDays_none fs today target _ ?_
    intro i hi
    have := List.mem_range.mp hi
    exact h i (by omega)

/-- Witness for C6: an id only in yesterday's partition is found; an id
only in the partition 8 days back is not. -/
theorem c6_find_by_id_witness :
    (dayHit fs6a ((0 : Int) - 1) ("idX") = some { deployId := "idX", steps := [] }) ∧
    (dayHit fs6a 0 ("idX") = none) ∧
    (findById fs6a 0 ("idX") = some { deployId := "idX", steps := [] }) ∧
    (∀ i : Nat, i ≤ 7 → dayHit fs6b ((0 : Int) - (i : Int)) ("idX") = none) ∧
    (findById fs6b 0 ("idX") = none) :=
  ⟨by decide, by decide,
    (c6_find_by_id fs6a 0 ("idX")).2.1 _ (by decide) (by decide),
    by decide,
    (c6_find_by_id fs6b 0 ("idX")).2.2 (by decide)⟩

/-! ## C7: the range-query handler -/

theorem jsFilter_nil (p : Option String) : jsFilter p [] = [] := by
  cases p with
  | none => rfl
  | some a =>
    show (if a = "" then [] else List.filter (fun l => strIncludes l.deployId a) []) = []
    split <;> simp

theorem jsFilter_subset (p : Option String) (l : List LogRec) : jsFilter p l ⊆ l := by
  cases p with
  | none => exact fun x hx => hx
  | some a =>
    show (if a = "" then l else List.filter (fun r => strIncludes r.deployId a) l) ⊆ l
    split
    · exact fun x hx => hx
    · exact List.Sublist.subset (List.filter_sublist _)

theorem splitNL_joinNL :
    ∀ lines : List (List Char), lines ≠ [] → (∀ l ∈ lines, '\n' ∉ l) →
      splitNL (joinNL lines) = lines := by
  intro lines
  induction lines with
  | nil => intro h; exact absurd rfl h
  | cons l ls ih =>
    intro _ h
    cases ls with
    | nil => exact splitNL_no_nl l (h l (by simp))
    | cons l2 ls2 =>
      rw [show joinNL (l :: l2 :: ls2) = l ++ '\n' :: joinNL (l2 :: ls2) from rfl]
      rw [splitNL_append _ _ (h l (by simp))]
      rw [ih (by simp) (fun x hx => h x (by simp [hx]))]

theorem filter_filterMap_line :
    ∀ lines : List (List Char),
      ((lines.filter (fun l => !(jsTrimL l).isEmpty)).filterMap parseLineL) =
        lines.filterMap (fun l => if (jsTrimL l).isEmpty then none else parseLineL l) := by
  intro lines
  induction lines with
  | nil => rfl
  | cons l ls ih =>
    by_cases he : jsTrimL l = []
    · have h : (jsTrimL l).isEmpty = true := by rw [he]; rfl
      simp [List.filter_cons, List.filterMap_cons, h, he, ih]
    · have h : (jsTrimL l).isEmpty = false := by
        cases hl : jsTrimL l with
        | nil => exact absurd hl he
        | cons x xs => rfl
      simp [List.filter_cons, List.filterMap_cons, h, he, ih]

/-- C7.  The query handler reads exactly one partition (the named date's
when a nonempty `date` parameter is given, today's otherwise — nothing
else in the filesystem can change the answer); a missing partition yields
the empty result rather than an error; at most `limit` records are
returned; every returned record passes the `app`/`env` substring filters;
each line of a partition is parsed independently (joining any newline-free
lines gives one record per parseable line, unparseable lines simply
dropped); and on a partition holding three matching lines, `limit = 1`
returns one record with `total = 3`. -/
theorem c7_query (fs : String → Option String) (tk : String) (limit : Nat)
    (a e d : Option String) :
    (fs (queryKey d tk) = none → query fs tk limit a e d = ⟨[], 0⟩) ∧
    (∀ fs2 : String → Option String, fs2 (queryKey d tk) = fs (queryKey d tk) →
      query fs2 tk limit a e d = query fs tk limit a e d) ∧
    ((query fs tk limit a e d).logs.length ≤ limit) ∧
    (∀ r ∈ (query fs tk limit a e d).logs, ∀ aa, a = some aa → aa ≠ "" →
      strIncludes r.deployId aa = true) ∧
    (∀ r ∈ (query fs tk limit a e d).logs, ∀ ee, e = some ee → ee ≠ "" →
      strIncludes r.deployId ee = true) ∧
    (∀ lines : List (List Char), lines ≠ [] → (∀ l ∈ lines, '\n' ∉ l) →
      parseLogFile ⟨joinNL lines⟩ =
        lines.filterMap (fun l => if (jsTrimL l).isEmpty then none else parseLineL l)) ∧
    ((query fsQ ("t") 1 none none (some ("20240101"))).logs.length = 1 ∧
      (query fsQ ("t") 1 none none (some ("20240101"))).total = 3) := by
  refine ⟨?_, ?_, ?_, ?_, ?_, ?_, ?_, ?_⟩
  · intro h
    simp [query, h, jsFilter_nil]
  · intro fs2 h
    simp [query, h]
  · simp only [query, List.length_take]
    omega
  · intro r hr aa haa hne
    subst haa
    simp only [query] at hr
    have hr2 := jsFilter_subset _ _ (List.take_subset _ _ hr)
    simp only [jsFilter] at hr2
    rw [if_neg hne] at hr2
    exact (List.mem_filter.mp hr2).2
  · intro r hr ee hee hne
    subst hee
    simp only [query] at hr
    have hr2 := List.take_subset _ _ hr
    simp only [jsFilter] at hr2
    rw [if_neg hne] at hr2
    exact (List.mem_filter.mp hr2).2
  · intro lines hne hnl
    unfold parseLogFile
    rw [show (String.mk (joinNL lines)).data = joinNL lines from rfl]
    rw [splitNL_joinNL lines hne hnl, filter_filterMap_line]
  · decide
  · decide

/-- Witness for C7: a missing partition yields the empty result, and the
three-line scenario returns one record with total 3. -/
theorem c7_query_witness :
    ((fun _ => (none : Option String)) (queryKey none ("t")) = none) ∧
    (query (fun _ => none) ("t") 5 none none none = ⟨[], 0⟩) ∧
    ((query fsQ ("t") 1 none none (some ("20240101"))).logs.length = 1 ∧
      (query fsQ ("t") 1 none none (some ("20240101"))).total = 3) :=
  ⟨rfl, (c7_query (fun _ => none) ("t") 5 none none none).1 rfl,
    ⟨(c7_query fsQ ("t") 1 none none (some ("20240101"))).2.2.2.2.2.2.1,
     (c7_query fsQ ("t") 1 none none (some ("20240101"))).2.2.2.2.2.2.2⟩⟩

end Deploy
